import Mathlib

/-!
Shallow embedding of the project-tracker core
(`src/plugins/claude-copilot/mcp/project-tracker/src/{types_.py, tools.py, storage.py}`).

The Python `dict[str, TaskStatus]` keeping per-task state is insertion-ordered;
it is modelled as an association list `List (String × TaskStatus)` where
assignment of a fresh key appends at the end and mutation of an existing
key updates the value in place.  Timestamps (`datetime.now().isoformat()`)
are passed in as an explicit `now : String` parameter.  Persistence
(`read_progress` / `write_progress`) is outside each operation: the
operations take the loaded `ProgressData` and return the state that would
be written back, with `Except` capturing the error-dict return paths.
-/

namespace ProjectTracker

/-- `TaskStatusEnum` from types_.py: the four recognised task states. -/
inductive TaskStatusEnum where
  | pending
  | in_progress
  | completed
  | blocked
deriving DecidableEq

/-- The `.value` string of each enum member (`TaskStatusEnum(str, Enum)`). -/
def TaskStatusEnum.value : TaskStatusEnum → String
  | .pending => "pending"
  | .in_progress => "in_progress"
  | .completed => "completed"
  | .blocked => "blocked"

/-- `TaskStatusEnum(status)`: parse a status string, failing on anything that
is not one of the four recognised values. -/
def parseStatus (s : String) : Option TaskStatusEnum :=
  if s = "pending" then some .pending
  else if s = "in_progress" then some .in_progress
  else if s = "completed" then some .completed
  else if s = "blocked" then some .blocked
  else none

/-- `FunctionDef` from types_.py: one unit-of-work catalog entry. -/
structure FunctionDef where
  id : String
  name : String := ""
  file : String := ""
  test_file : Option String := none
  signature : String := ""
  business_logic : String := ""
  code_logic : String := ""
  test_cases : List String := []
  dependencies : List String := []
  called_by : List String := []
  uses : List String := []
deriving DecidableEq

/-- `TaskStatus` from types_.py: the mutable state of one task. -/
structure TaskStatus where
  id : String
  status : TaskStatusEnum := .pending
  notes : Option String := some ""
  updated_at : String := ""
deriving DecidableEq

/-- `ProjectProgress` from types_.py: the aggregate summary. -/
structure ProjectProgress where
  project_name : String := ""
  total : Nat := 0
  completed : Nat := 0
  in_progress : Nat := 0
  pending : Nat := 0
  blocked : Nat := 0
  current_task : Option String := none
deriving DecidableEq

/-- `ChangeLogEntry` from types_.py. -/
structure ChangeLogEntry where
  date : Option String := none
  timestamp : Option String := none
  function_id : Option String := none
  action : Option String := none
  description : String := ""
  author : Option String := none
deriving DecidableEq

/-- `ProgressData` from types_.py: summary, per-task states (insertion-ordered
mapping) and the append-only changelog. -/
structure ProgressData where
  project_name : String := ""
  summary : ProjectProgress := {}
  tasks : List (String × TaskStatus) := []
  changelog : List ChangeLogEntry := []
deriving DecidableEq

/-- `get_function_by_id` from storage.py: first catalog entry whose `id`
matches (the for-loop returns on the first hit). -/
def get_function_by_id (functions : List FunctionDef) (func_id : String) :
    Option FunctionDef :=
  functions.find? (fun f => f.id == func_id)

/-- Lookup in the `tasks` mapping (`progress.tasks.get(func_id)` and the
membership test `func_id in progress.tasks`). -/
def lookupTask (tasks : List (String × TaskStatus)) (func_id : String) :
    Option TaskStatus :=
  (tasks.find? (fun q => q.1 == func_id)).map Prod.snd

/-- In-place mutation of the entry at a key
(`progress.tasks[fid].status = ...` etc.): the key set and order are
unchanged, only the stored value is rewritten. -/
def updateTask (tasks : List (String × TaskStatus)) (func_id : String)
    (f : TaskStatus → TaskStatus) : List (String × TaskStatus) :=
  tasks.map (fun q => if q.1 = func_id then (q.1, f q.2) else q)

/-- One step of the counting loop of `_recalculate_summary`: the if/elif
chain bumping the counter matching the status of the task at hand.  The
accumulator is `(completed, in_progress, pending, blocked)`. -/
def countStep (acc : Nat × Nat × Nat × Nat) (q : String × TaskStatus) :
    Nat × Nat × Nat × Nat :=
  match q.2.status with
  | .completed => (acc.1 + 1, acc.2.1, acc.2.2.1, acc.2.2.2)
  | .in_progress => (acc.1, acc.2.1 + 1, acc.2.2.1, acc.2.2.2)
  | .pending => (acc.1, acc.2.1, acc.2.2.1 + 1, acc.2.2.2)
  | .blocked => (acc.1, acc.2.1, acc.2.2.1, acc.2.2.2 + 1)

/-- `_recalculate_summary` from tools.py: recompute every per-status count
and the total from the full task mapping; `current_task` and
`project_name` are untouched. -/
def recalculate_summary (p : ProgressData) : ProgressData :=
  let counts := p.tasks.foldl countStep (0, 0, 0, 0)
  { p with summary :=
    { p.summary with
      total := p.tasks.length
      completed := counts.1
      in_progress := counts.2.1
      pending := counts.2.2.1
      blocked := counts.2.2.2 } }

/-- Lines 304-308 of tools.py: after the summary recompute, point
`summary.current_task` at the task when it moved to `in_progress`,
clear the pointer when this task was current and moved off
`in_progress`, and leave it alone otherwise. -/
def updateCurrentPointer (p : ProgressData) (function_id : String)
    (new_status : TaskStatusEnum) : ProgressData :=
  if new_status = .in_progress then
    { p with summary := { p.summary with current_task := some function_id } }
  else if p.summary.current_task = some function_id then
    { p with summary := { p.summary with current_task := none } }
  else p

/-- `update_task_status` from tools.py, state-passing form: the loaded
`ProgressData` comes in, the state handed to `write_progress` comes out;
the two error-return paths become `Except.error` with the message the
code formats (no state is written on them). -/
def update_task_status (catalog : List FunctionDef) (now : String)
    (progress : ProgressData) (function_id : String) (status : String)
    (notes : Option String) : Except String ProgressData :=
  match parseStatus status with
  | none =>
      .error ("无效的状态: " ++ status ++
        "。有效值: pending, in_progress, completed, blocked")
  | some new_status =>
    match lookupTask progress.tasks function_id with
    | none =>
      match get_function_by_id catalog function_id with
      | none => .error ("找不到函数: " ++ function_id)
      | some _ =>
        let p1 : ProgressData :=
          { progress with tasks := progress.tasks ++
            [(function_id,
              { id := function_id, status := new_status, notes := notes,
                updated_at := now })] }
        .ok (updateCurrentPointer (recalculate_summary p1) function_id new_status)
    | some old_task =>
      let p1 : ProgressData :=
        { progress with
          tasks := updateTask progress.tasks function_id
            (fun t => { t with status := new_status, notes := notes, updated_at := now }),
          changelog := progress.changelog ++
            [{ function_id := some function_id,
               action := some "status_change",
               description := "状态从 " ++ old_task.status.value ++
                 " 变更为 " ++ new_status.value,
               timestamp := some now }] }
      .ok (updateCurrentPointer (recalculate_summary p1) function_id new_status)

/-- `is_task_ready` from `get_current_task_context` (tools.py lines
421-434): a task is ready when its catalog entry exists and every declared
dependency has a task state with status exactly `completed` (a task with
an empty dependency list is ready at once; `List.all` on `[]` is `true`,
matching the early `return True`). -/
def is_task_ready (func_map : List FunctionDef)
    (tasks : List (String × TaskStatus)) (func_id : String) : Bool :=
  match get_function_by_id func_map func_id with
  | none => false
  | some func =>
    func.dependencies.all (fun dep_id =>
      match lookupTask tasks dep_id with
      | none => false
      | some dep_task => dep_task.status == .completed)

/-- The task-selection loop of `get_current_task_context` (tools.py lines
436-445): scan the task mapping in iteration order; the first
`in_progress` task breaks out of the loop and wins; otherwise the first
ready `pending` task is remembered (the `ready_pending` accumulator) and
returned at the end. -/
def findCurrentTask (func_map : List FunctionDef)
    (allTasks : List (String × TaskStatus)) :
    List (String × TaskStatus) → Option TaskStatus → Option TaskStatus
  | [], ready_pending => ready_pending
  | (func_id, task) :: rest, ready_pending =>
    if task.status = .in_progress then some task
    else if task.status = .pending ∧ ready_pending = none ∧
        is_task_ready func_map allTasks func_id = true then
      findCurrentTask func_map allTasks rest (some task)
    else
      findCurrentTask func_map allTasks rest ready_pending

/-- All ids that occur in the `dependencies` list of some catalog entry:
the only ids the closure worklist can ever have appended to it. -/
def catalogDepIds (catalog : List FunctionDef) : Finset String :=
  catalog.foldr (fun f acc => f.dependencies.toFinset ∪ acc) ∅

/-- The dependency-closure worklist loop shared by `get_function_with_deps`
(tools.py lines 199-211) and `get_current_task_context` (lines 469-480):
pop the front of `to_process`; an id not yet in the visited set
`all_dep_ids` is added to it and, when it resolves to a catalog entry,
the dependencies of that entry that are still unvisited are appended to
the worklist.  Ids that resolve to nothing are still added to the set
(the loop adds `dep_id` before looking it up) but contribute no outgoing
edges.  Termination holds for every finite catalog, cyclic graphs
included: the pair (number of mentionable ids not yet visited, worklist
length) drops lexicographically at every iteration. -/
def collectDeps (catalog : List FunctionDef) :
    List String → Finset String → Finset String
  | [], visited => visited
  | dep_id :: rest, visited =>
    if dep_id ∈ visited then
      collectDeps catalog rest visited
    else
      match hfind : get_function_by_id catalog dep_id with
      | none => collectDeps catalog rest (insert dep_id visited)
      | some dep_func =>
        collectDeps catalog
          (rest ++ dep_func.dependencies.filter
            (fun nd => decide (nd ∉ insert dep_id visited)))
          (insert dep_id visited)
termination_by tp visited =>
  (((catalogDepIds catalog ∪ tp.toFinset) \ visited).card, tp.length)
decreasing_by
  · simp only [Prod.lex_iff]
    have hle : ((catalogDepIds catalog ∪ rest.toFinset) \ visited).card ≤
        ((catalogDepIds catalog ∪ (dep_id :: rest).toFinset) \ visited).card := by
      apply Finset.card_le_card
      apply Finset.sdiff_subset_sdiff _ le_rfl
      apply Finset.union_subset_union_right
      simp only [List.toFinset_cons]
      exact Finset.subset_insert _ _
    rcases lt_or_eq_of_le hle with h | h
    · exact Or.inl h
    · exact Or.inr ⟨h, by simp⟩
  · simp only [Prod.lex_iff]
    refine Or.inl (Finset.card_lt_card
      ((Finset.ssubset_iff_of_subset ?_).mpr ⟨dep_id, ?_, ?_⟩))
    · intro x hx
      simp only [Finset.mem_sdiff, Finset.mem_union, Finset.mem_insert,
        List.toFinset_cons, not_or] at hx ⊢
      obtain ⟨hx1, hxd, hxv⟩ := hx
      exact ⟨Or.imp_right Or.inr hx1, hxv⟩
    · simp [‹dep_id ∉ visited›]
    · simp
  · simp only [Prod.lex_iff]
    have hsub : ∀ (L : List FunctionDef) (g : FunctionDef), g ∈ L →
        g.dependencies.toFinset ⊆ catalogDepIds L := by
      intro L
      induction L with
      | nil => intro g hg; cases hg
      | cons a as ih =>
        intro g hg
        rcases List.mem_cons.mp hg with rfl | hg
        · exact Finset.subset_union_left
        · exact (ih g hg).trans Finset.subset_union_right
    refine Or.inl (Finset.card_lt_card
      ((Finset.ssubset_iff_of_subset ?_).mpr ⟨dep_id, ?_, ?_⟩))
    · intro x hx
      simp only [Finset.mem_sdiff, Finset.mem_union, Finset.mem_insert,
        List.toFinset_cons, List.toFinset_append, not_or] at hx ⊢
      obtain ⟨hx1, hxd, hxv⟩ := hx
      refine ⟨?_, hxv⟩
      rcases hx1 with h | h | h
      · exact Or.inl h
      · exact Or.inr (Or.inr h)
      · have h2 : x ∈ catalogDepIds catalog := by
          refine hsub catalog dep_func (List.mem_of_find?_eq_some hfind) ?_
          simp only [List.mem_toFinset]
          exact List.mem_of_mem_filter (List.mem_toFinset.mp h)
        exact Or.inl h2
    · simp [‹dep_id ∉ visited›]
    · simp

/-- Number of task entries currently holding a given status. -/
def countStatus (tasks : List (String × TaskStatus)) (st : TaskStatusEnum) :
    Nat :=
  tasks.countP (fun q => decide (q.2.status = st))

/-- Extract the success state of a transition, with a fallback default
(used only to name concrete results in closed statements). -/
def okOr (d : ProgressData) : Except String ProgressData → ProgressData
  | .ok p => p
  | .error _ => d

/-- Catalog for the chain example of the spec: `A` depends on `B`,
`B` depends on `C`, `C` has no dependencies. -/
def chainA : FunctionDef := { id := "A", dependencies := ["B"] }

def chainB : FunctionDef := { id := "B", dependencies := ["C"] }

def chainC : FunctionDef := { id := "C" }

/-- Catalog for the cyclic example of the spec: `A` depends on `B` and
`B` depends back on `A`. -/
def cycleA : FunctionDef := { id := "A", dependencies := ["B"] }

def cycleB : FunctionDef := { id := "B", dependencies := ["A"] }

/-- Three-entry demo catalog reused by the concrete witnesses. -/
def demoCatalog : List FunctionDef := [chainA, chainB, chainC]

/-- A progress state that already tracks task `A` (for the
existing-task transition witnesses). -/
def demoTrackedA : ProgressData :=
  { tasks := [("A", { id := "A", status := .pending, notes := some "",
                      updated_at := "t0" })] }

/-- Concrete task states used in the scan witnesses. -/
def demoPendingA : TaskStatus :=
  { id := "A", status := .pending, notes := some "", updated_at := "t0" }

def demoPendingC : TaskStatus :=
  { id := "C", status := .pending, notes := some "", updated_at := "t0" }

def demoIpB : TaskStatus :=
  { id := "B", status := .in_progress, notes := some "", updated_at := "t0" }

def demoPendingZ : TaskStatus :=
  { id := "Z", status := .pending, notes := some "", updated_at := "t0" }

/-- Task mapping with no in-progress entry: `A` is pending but blocked on
its unfinished dependency `B`, while `C` is pending with no dependencies. -/
def demoTasksNoIp : List (String × TaskStatus) :=
  [("A", demoPendingA), ("C", demoPendingC)]

/-- Task mapping where a ready pending task comes before an in-progress
one in iteration order. -/
def demoTasksWithIp : List (String × TaskStatus) :=
  [("C", demoPendingC), ("B", demoIpB)]

/-- Task mapping whose only entry refers to an id absent from the catalog. -/
def demoTasksOrphan : List (String × TaskStatus) :=
  [("Z", demoPendingZ)]

/-- Result state of a creation-path transition (no prior TaskState). -/
def demoCreated : ProgressData :=
  okOr {} (update_task_status demoCatalog "t1" {} "A" "completed" none)

/-- Result state of a transition that moves `A` to in-progress. -/
def demoStarted : ProgressData :=
  okOr {} (update_task_status demoCatalog "t1" {} "A" "in_progress" none)

theorem subset_catalogDepIds {catalog : List FunctionDef} {f : FunctionDef}
    (hf : f ∈ catalog) : f.dependencies.toFinset ⊆ catalogDepIds catalog := by
  induction catalog with
  | nil => cases hf
  | cons g rest ih =>
    rcases List.mem_cons.mp hf with rfl | hf
    · exact Finset.subset_union_left
    · exact (ih hf).trans Finset.subset_union_right

theorem collectDeps_nil (c : List FunctionDef) (v : Finset String) :
    collectDeps c [] v = v := by
  simp [collectDeps]

theorem collectDeps_cons_mem (c : List FunctionDef) (d : String)
    (rest : List String) (v : Finset String) (h : d ∈ v) :
    collectDeps c (d :: rest) v = collectDeps c rest v := by
  rw [collectDeps]
  simp [h]

theorem collectDeps_cons_none (c : List FunctionDef) (d : String)
    (rest : List String) (v : Finset String) (h : d ∉ v)
    (hf : get_function_by_id c d = none) :
    collectDeps c (d :: rest) v = collectDeps c rest (insert d v) := by
  rw [collectDeps, if_neg h]
  split
  · rfl
  · simp_all

theorem collectDeps_cons_some (c : List FunctionDef) (d : String)
    (rest : List String) (v : Finset String) (h : d ∉ v) (f : FunctionDef)
    (hf : get_function_by_id c d = some f) :
    collectDeps c (d :: rest) v =
      collectDeps c
        (rest ++ f.dependencies.filter (fun nd => decide (nd ∉ insert d v)))
        (insert d v) := by
  rw [collectDeps, if_neg h]
  split
  · simp_all
  · simp_all

theorem foldl_countStep (tasks : List (String × TaskStatus))
    (acc : Nat × Nat × Nat × Nat) :
    tasks.foldl countStep acc =
      (acc.1 + countStatus tasks .completed,
       acc.2.1 + countStatus tasks .in_progress,
       acc.2.2.1 + countStatus tasks .pending,
       acc.2.2.2 + countStatus tasks .blocked) := by
  induction tasks generalizing acc with
  | nil => simp [countStatus]
  | cons q rest ih =>
    rw [List.foldl_cons, ih]
    rcases hq : q.2.status <;>
      simp [countStep, countStatus, List.countP_cons, hq] <;> omega

theorem countStatus_sum (tasks : List (String × TaskStatus)) :
    countStatus tasks .completed + countStatus tasks .in_progress +
      countStatus tasks .pending + countStatus tasks .blocked =
      tasks.length := by
  induction tasks with
  | nil => simp [countStatus]
  | cons q rest ih =>
    rcases hq : q.2.status <;>
      simp only [countStatus, List.countP_cons, hq, List.length_cons] at * <;>
      simp <;> omega

theorem recalculate_summary_spec (p : ProgressData) :
    (recalculate_summary p).tasks = p.tasks ∧
    (recalculate_summary p).changelog = p.changelog ∧
    (recalculate_summary p).project_name = p.project_name ∧
    (recalculate_summary p).summary.current_task = p.summary.current_task ∧
    (recalculate_summary p).summary.project_name = p.summary.project_name ∧
    (recalculate_summary p).summary.total = p.tasks.length ∧
    (recalculate_summary p).summary.completed = countStatus p.tasks .completed ∧
    (recalculate_summary p).summary.in_progress = countStatus p.tasks .in_progress ∧
    (recalculate_summary p).summary.pending = countStatus p.tasks .pending ∧
    (recalculate_summary p).summary.blocked = countStatus p.tasks .blocked := by
  simp [recalculate_summary, foldl_countStep]

theorem updateCurrentPointer_tasks (p : ProgressData) (fid : String)
    (ns : TaskStatusEnum) : (updateCurrentPointer p fid ns).tasks = p.tasks := by
  unfold updateCurrentPointer
  split
  · rfl
  · split <;> rfl

theorem updateCurrentPointer_changelog (p : ProgressData) (fid : String)
    (ns : TaskStatusEnum) :
    (updateCurrentPointer p fid ns).changelog = p.changelog := by
  unfold updateCurrentPointer
  split
  · rfl
  · split <;> rfl

theorem updateCurrentPointer_counts (p : ProgressData) (fid : String)
    (ns : TaskStatusEnum) :
    (updateCurrentPointer p fid ns).summary.total = p.summary.total ∧
    (updateCurrentPointer p fid ns).summary.completed = p.summary.completed ∧
    (updateCurrentPointer p fid ns).summary.in_progress = p.summary.in_progress ∧
    (updateCurrentPointer p fid ns).summary.pending = p.summary.pending ∧
    (updateCurrentPointer p fid ns).summary.blocked = p.summary.blocked ∧
    (updateCurrentPointer p fid ns).summary.project_name = p.summary.project_name := by
  unfold updateCurrentPointer
  split
  · simp
  · split <;> simp

theorem updateCurrentPointer_current (p : ProgressData) (fid : String)
    (ns : TaskStatusEnum) :
    (updateCurrentPointer p fid ns).summary.current_task =
      if ns = .in_progress then some fid
      else if p.summary.current_task = some fid then none
      else p.summary.current_task := by
  unfold updateCurrentPointer
  split
  · simp_all
  · split <;> simp_all

theorem lookupTask_append_self (tasks : List (String × TaskStatus))
    (fid : String) (v : TaskStatus) (h : lookupTask tasks fid = none) :
    lookupTask (tasks ++ [(fid, v)]) fid = some v := by
  induction tasks with
  | nil => simp [lookupTask]
  | cons q rest ih =>
    unfold lookupTask at *
    by_cases hq : q.1 = fid
    · simp [List.find?_cons, hq] at h
    · simp only [List.cons_append, List.find?_cons, beq_eq_false_iff_ne.mpr hq] at h ⊢
      exact ih h

theorem lookupTask_updateTask_self (tasks : List (String × TaskStatus))
    (fid : String) (f : TaskStatus → TaskStatus) :
    lookupTask (updateTask tasks fid f) fid = (lookupTask tasks fid).map f := by
  induction tasks with
  | nil => rfl
  | cons q rest ih =>
    unfold lookupTask updateTask at *
    by_cases h : q.1 = fid
    · simp [List.find?_cons, h]
    · simp only [List.map_cons, if_neg h]
      rw [List.find?_cons_of_neg _ (by simp [h]),
        List.find?_cons_of_neg _ (by simp [h])]
      exact ih

theorem updateTask_idem (tasks : List (String × TaskStatus)) (fid : String)
    (f : TaskStatus → TaskStatus) (hf : ∀ t, f (f t) = f t) :
    updateTask (updateTask tasks fid f) fid f = updateTask tasks fid f := by
  unfold updateTask
  rw [List.map_map]
  apply List.map_congr_left
  intro q _
  by_cases h : q.1 = fid <;> simp [Function.comp, h, hf]

theorem ProjectProgress.ext' {a b : ProjectProgress}
    (h1 : a.project_name = b.project_name) (h2 : a.total = b.total)
    (h3 : a.completed = b.completed) (h4 : a.in_progress = b.in_progress)
    (h5 : a.pending = b.pending) (h6 : a.blocked = b.blocked)
    (h7 : a.current_task = b.current_task) : a = b := by
  cases a
  cases b
  simp_all

theorem dep_check_iff (tasks : List (String × TaskStatus)) (dep : String) :
    (match lookupTask tasks dep with
     | none => false
     | some dep_task => dep_task.status == TaskStatusEnum.completed) = true ↔
    ∃ t, lookupTask tasks dep = some t ∧ t.status = .completed := by
  cases h : lookupTask tasks dep <;> simp [h]

theorem is_task_ready_iff (func_map : List FunctionDef)
    (tasks : List (String × TaskStatus)) (fid : String) (f : FunctionDef)
    (hf : get_function_by_id func_map fid = some f) :
    is_task_ready func_map tasks fid = true ↔
      ∀ dep ∈ f.dependencies,
        ∃ t, lookupTask tasks dep = some t ∧ t.status = .completed := by
  unfold is_task_ready
  rw [hf, List.all_eq_true]
  constructor
  · intro h dep hdep
    exact (dep_check_iff tasks dep).mp (h dep hdep)
  · intro h dep hdep
    exact (dep_check_iff tasks dep).mpr (h dep hdep)

theorem is_task_ready_absent (func_map : List FunctionDef)
    (tasks : List (String × TaskStatus)) (fid : String)
    (hf : get_function_by_id func_map fid = none) :
    is_task_ready func_map tasks fid = false := by
  unfold is_task_ready
  rw [hf]

theorem findCurrentTask_locked (func_map : List FunctionDef)
    (allTasks : List (String × TaskStatus)) (t : TaskStatus) :
    ∀ l : List (String × TaskStatus),
      (∀ q ∈ l, q.2.status ≠ TaskStatusEnum.in_progress) →
      findCurrentTask func_map allTasks l (some t) = some t := by
  intro l
  induction l with
  | nil => intro _; rfl
  | cons q rest ih =>
    intro h
    obtain ⟨fid, u⟩ := q
    have hu : u.status ≠ TaskStatusEnum.in_progress := h _ (List.mem_cons_self _ _)
    rw [findCurrentTask, if_neg hu, if_neg (by simp)]
    exact ih (fun r hr => h r (List.mem_cons_of_mem _ hr))

theorem findCurrentTask_no_ip (func_map : List FunctionDef)
    (allTasks : List (String × TaskStatus)) :
    ∀ l : List (String × TaskStatus),
      (∀ q ∈ l, q.2.status ≠ TaskStatusEnum.in_progress) →
      findCurrentTask func_map allTasks l none =
        (l.find? (fun q => decide (q.2.status = TaskStatusEnum.pending) &&
          is_task_ready func_map allTasks q.1)).map Prod.snd := by
  intro l
  induction l with
  | nil => intro _; rfl
  | cons q rest ih =>
    intro h
    obtain ⟨fid, u⟩ := q
    have hu : u.status ≠ TaskStatusEnum.in_progress := h _ (List.mem_cons_self _ _)
    have hrest : ∀ q ∈ rest, q.2.status ≠ TaskStatusEnum.in_progress :=
      fun r hr => h r (List.mem_cons_of_mem _ hr)
    rw [findCurrentTask, if_neg hu]
    by_cases hp : u.status = TaskStatusEnum.pending ∧
        is_task_ready func_map allTasks fid = true
    · rw [if_pos ⟨hp.1, rfl, hp.2⟩]
      rw [findCurrentTask_locked func_map allTasks u rest hrest]
      simp [List.find?_cons, hp.1, hp.2]
    · have hcond : ¬(u.status = TaskStatusEnum.pending ∧
          (none : Option TaskStatus) = none ∧
          is_task_ready func_map allTasks fid = true) := by
        intro hc
        exact hp ⟨hc.1, hc.2.2⟩
      rw [if_neg hcond, ih hrest]
      have hfind : (decide (u.status = TaskStatusEnum.pending) &&
          is_task_ready func_map allTasks fid) = false := by
        cases hr : is_task_ready func_map allTasks fid
        · simp
        · rcases Decidable.em (u.status = TaskStatusEnum.pending) with he | he
          · exact absurd ⟨he, hr⟩ hp
          · simp [he]
      simp [List.find?_cons, hfind]

theorem findCurrentTask_ip (func_map : List FunctionDef)
    (allTasks : List (String × TaskStatus)) :
    ∀ (l : List (String × TaskStatus)) (acc : Option TaskStatus),
      (∃ q ∈ l, q.2.status = TaskStatusEnum.in_progress) →
      findCurrentTask func_map allTasks l acc =
        (l.find? (fun q =>
          decide (q.2.status = TaskStatusEnum.in_progress))).map Prod.snd := by
  intro l
  induction l with
  | nil =>
    intro acc h
    simp at h
  | cons q rest ih =>
    intro acc h
    obtain ⟨fid, u⟩ := q
    by_cases hu : u.status = TaskStatusEnum.in_progress
    · rw [findCurrentTask, if_pos hu]
      simp [List.find?_cons, hu]
    · have hrest : ∃ q ∈ rest, q.2.status = TaskStatusEnum.in_progress := by
        rcases h with ⟨r, hr, hrs⟩
        rcases List.mem_cons.mp hr with rfl | hr
        · exact absurd hrs hu
        · exact ⟨r, hr, hrs⟩
      rw [findCurrentTask, if_neg hu]
      have hstep : (decide (u.status = TaskStatusEnum.in_progress) : Bool) = false := by
        simp [hu]
      split
      · rw [ih _ hrest]
        simp [List.find?_cons, hstep]
      · rw [ih _ hrest]
        simp [List.find?_cons, hstep]

theorem findCurrentTask_not_selected (func_map : List FunctionDef)
    (allTasks : List (String × TaskStatus)) (t : TaskStatus)
    (hpend : t.status = TaskStatusEnum.pending)
    (hready : is_task_ready func_map allTasks t.id = false) :
    ∀ (l : List (String × TaskStatus)) (acc : Option TaskStatus),
      (∀ q ∈ l, q.2.id = q.1) → acc ≠ some t →
      findCurrentTask func_map allTasks l acc ≠ some t := by
  intro l
  induction l with
  | nil =>
    intro acc _ hacc
    exact hacc
  | cons q rest ih =>
    intro acc hkeys hacc
    obtain ⟨fid, u⟩ := q
    have hkey : u.id = fid := hkeys _ (List.mem_cons_self _ _)
    have hkrest : ∀ q ∈ rest, q.2.id = q.1 :=
      fun r hr => hkeys r (List.mem_cons_of_mem _ hr)
    rw [findCurrentTask]
    by_cases hu : u.status = TaskStatusEnum.in_progress
    · rw [if_pos hu]
      intro he
      rw [Option.some.injEq] at he
      subst he
      rw [hpend] at hu
      cases hu
    · rw [if_neg hu]
      by_cases hc : u.status = TaskStatusEnum.pending ∧ acc = none ∧
          is_task_ready func_map allTasks fid = true
      · rw [if_pos hc]
        refine ih _ hkrest ?_
        intro he
        rw [Option.some.injEq] at he
        subst he
        rw [hkey] at hready
        rw [hready] at hc
        cases hc.2.2
      · rw [if_neg hc]
        exact ih _ hkrest hacc

theorem insert_step_subset (v : Finset String) (d : String)
    (rest tp : List String) (CD : Finset String)
    (htp : tp.toFinset ⊆ rest.toFinset ∪ CD) :
    insert d v ∪ tp.toFinset ∪ CD ⊆ v ∪ (d :: rest).toFinset ∪ CD := by
  intro x hx
  rcases Finset.mem_union.mp hx with hx | hx
  · rcases Finset.mem_union.mp hx with hx | hx
    · rcases Finset.mem_insert.mp hx with rfl | hxv
      · refine Finset.mem_union_left _ (Finset.mem_union_right _ ?_)
        simp
      · exact Finset.mem_union_left _ (Finset.mem_union_left _ hxv)
    · rcases Finset.mem_union.mp (htp hx) with h | h
      · refine Finset.mem_union_left _ (Finset.mem_union_right _ ?_)
        simp only [List.toFinset_cons]
        exact Finset.mem_insert_of_mem h
      · exact Finset.mem_union_right _ h
  · exact Finset.mem_union_right _ hx

theorem post_summary_ok (p1 : ProgressData) (fid : String) (ns : TaskStatusEnum) :
    (updateCurrentPointer (recalculate_summary p1) fid ns).summary.total =
      (updateCurrentPointer (recalculate_summary p1) fid ns).tasks.length ∧
    (updateCurrentPointer (recalculate_summary p1) fid ns).summary.completed +
      (updateCurrentPointer (recalculate_summary p1) fid ns).summary.in_progress +
      (updateCurrentPointer (recalculate_summary p1) fid ns).summary.pending +
      (updateCurrentPointer (recalculate_summary p1) fid ns).summary.blocked =
      (updateCurrentPointer (recalculate_summary p1) fid ns).summary.total ∧
    (updateCurrentPointer (recalculate_summary p1) fid ns).summary.completed =
      countStatus (updateCurrentPointer (recalculate_summary p1) fid ns).tasks .completed ∧
    (updateCurrentPointer (recalculate_summary p1) fid ns).summary.in_progress =
      countStatus (updateCurrentPointer (recalculate_summary p1) fid ns).tasks .in_progress ∧
    (updateCurrentPointer (recalculate_summary p1) fid ns).summary.pending =
      countStatus (updateCurrentPointer (recalculate_summary p1) fid ns).tasks .pending ∧
    (updateCurrentPointer (recalculate_summary p1) fid ns).summary.blocked =
      countStatus (updateCurrentPointer (recalculate_summary p1) fid ns).tasks .blocked := by
  obtain ⟨hc1, hc2, hc3, hc4, hc5, _⟩ :=
    updateCurrentPointer_counts (recalculate_summary p1) fid ns
  obtain ⟨hr1, _, _, _, _, hr6, hr7, hr8, hr9, hr10⟩ := recalculate_summary_spec p1
  have ht : (updateCurrentPointer (recalculate_summary p1) fid ns).tasks = p1.tasks := by
    rw [updateCurrentPointer_tasks, hr1]
  refine ⟨?_, ?_, ?_, ?_, ?_, ?_⟩
  · rw [ht, hc1, hr6]
  · rw [hc1, hc2, hc3, hc4, hc5, hr6, hr7, hr8, hr9, hr10]
    exact countStatus_sum p1.tasks
  · rw [ht, hc2, hr7]
  · rw [ht, hc3, hr8]
  · rw [ht, hc4, hr9]
  · rw [ht, hc5, hr10]

theorem post_pointer_ok (p1 : ProgressData) (fid : String) (ns : TaskStatusEnum) :
    (updateCurrentPointer (recalculate_summary p1) fid ns).summary.current_task =
      if ns = .in_progress then some fid
      else if p1.summary.current_task = some fid then none
      else p1.summary.current_task := by
  rw [updateCurrentPointer_current]
  obtain ⟨_, _, _, h4, _⟩ := recalculate_summary_spec p1
  rw [h4]

theorem update_existing_eq (catalog : List FunctionDef) (now : String)
    (p : ProgressData) (fid status : String) (notes : Option String)
    (ns : TaskStatusEnum) (t0 : TaskStatus)
    (hs : parseStatus status = some ns)
    (h0 : lookupTask p.tasks fid = some t0) :
    update_task_status catalog now p fid status notes =
      .ok (updateCurrentPointer (recalculate_summary
        { p with
          tasks := updateTask p.tasks fid
            (fun t => { t with status := ns, notes := notes, updated_at := now }),
          changelog := p.changelog ++
            [{ date := none, timestamp := some now, function_id := some fid,
               action := some "status_change",
               description := "状态从 " ++ t0.status.value ++ " 变更为 " ++ ns.value,
               author := none }] }) fid ns) := by
  simp only [update_task_status, hs, h0]

theorem update_create_eq (catalog : List FunctionDef) (now : String)
    (p : ProgressData) (fid status : String) (notes : Option String)
    (ns : TaskStatusEnum) (f : FunctionDef)
    (hs : parseStatus status = some ns)
    (h0 : lookupTask p.tasks fid = none)
    (hf : get_function_by_id catalog fid = some f) :
    update_task_status catalog now p fid status notes =
      .ok (updateCurrentPointer (recalculate_summary
        { p with tasks := p.tasks ++
          [(fid, { id := fid, status := ns, notes := notes,
                   updated_at := now })] }) fid ns) := by
  simp only [update_task_status, hs, h0, hf]

theorem collectDeps_chain :
    collectDeps [chainA, chainB, chainC] chainA.dependencies ∅ = {"B", "C"} := by
  have h1 : get_function_by_id [chainA, chainB, chainC] "B" = some chainB := by
    decide
  have h2 : get_function_by_id [chainA, chainB, chainC] "C" = some chainC := by
    decide
  rw [show chainA.dependencies = ["B"] from rfl]
  rw [collectDeps_cons_some _ _ _ _ (by decide) chainB h1]
  rw [show (([] : List String) ++ chainB.dependencies.filter
    (fun nd => decide (nd ∉ insert "B" (∅ : Finset String)))) = ["C"] from by decide]
  rw [collectDeps_cons_some _ _ _ _ (by decide) chainC h2]
  rw [show (([] : List String) ++ chainC.dependencies.filter
    (fun nd => decide (nd ∉ insert "C" (insert "B" (∅ : Finset String))))) =
    ([] : List String) from by decide]
  rw [collectDeps_nil]
  decide

theorem collectDeps_cycle :
    collectDeps [cycleA, cycleB] cycleA.dependencies ∅ = {"A", "B"} := by
  have h1 : get_function_by_id [cycleA, cycleB] "B" = some cycleB := by decide
  have h2 : get_function_by_id [cycleA, cycleB] "A" = some cycleA := by decide
  rw [show cycleA.dependencies = ["B"] from rfl]
  rw [collectDeps_cons_some _ _ _ _ (by decide) cycleB h1]
  rw [show (([] : List String) ++ cycleB.dependencies.filter
    (fun nd => decide (nd ∉ insert "B" (∅ : Finset String)))) = ["A"] from by decide]
  rw [collectDeps_cons_some _ _ _ _ (by decide) cycleA h2]
  rw [show (([] : List String) ++ cycleA.dependencies.filter
    (fun nd => decide (nd ∉ insert "A" (insert "B" (∅ : Finset String))))) =
    ([] : List String) from by decide]
  rw [collectDeps_nil]
  decide

theorem update_invalid_eq (catalog : List FunctionDef) (now : String)
    (p : ProgressData) (fid status : String) (notes : Option String)
    (hs : parseStatus status = none) :
    update_task_status catalog now p fid status notes =
      .error ("无效的状态: " ++ status ++
        "。有效值: pending, in_progress, completed, blocked") := by
  simp only [update_task_status, hs]

theorem update_unknown_eq (catalog : List FunctionDef) (now : String)
    (p : ProgressData) (fid status : String) (notes : Option String)
    (ns : TaskStatusEnum)
    (hs : parseStatus status = some ns)
    (h0 : lookupTask p.tasks fid = none)
    (hf : get_function_by_id catalog fid = none) :
    update_task_status catalog now p fid status notes =
      .error ("找不到函数: " ++ fid) := by
  simp only [update_task_status, hs, h0, hf]

theorem pointer_cases (c0 : Option String) (fid : String) (ns : TaskStatusEnum) :
    (ns = TaskStatusEnum.in_progress →
      (if ns = TaskStatusEnum.in_progress then some fid
       else if c0 = some fid then none else c0) = some fid) ∧
    (ns ≠ TaskStatusEnum.in_progress → c0 = some fid →
      (if ns = TaskStatusEnum.in_progress then some fid
       else if c0 = some fid then none else c0) = none) ∧
    (ns ≠ TaskStatusEnum.in_progress → c0 ≠ some fid →
      (if ns = TaskStatusEnum.in_progress then some fid
       else if c0 = some fid then none else c0) = c0) := by
  refine ⟨fun hip => by rw [if_pos hip], fun hnip hc => ?_, fun hnip hc => ?_⟩
  · rw [if_neg hnip, if_pos hc]
  · rw [if_neg hnip, if_neg hc]

theorem pointer_formula_idem (c0 : Option String) (fid : String)
    (ns : TaskStatusEnum) :
    (if ns = TaskStatusEnum.in_progress then some fid
     else if (if ns = TaskStatusEnum.in_progress then some fid
              else if c0 = some fid then none else c0) = some fid then none
     else if ns = TaskStatusEnum.in_progress then some fid
          else if c0 = some fid then none else c0) =
    (if ns = TaskStatusEnum.in_progress then some fid
     else if c0 = some fid then none else c0) := by
  by_cases h1 : ns = TaskStatusEnum.in_progress
  · simp [h1]
  · by_cases h2 : c0 = some fid <;> simp [h1, h2]

/-- C9: for every finite catalog, cyclic or self-referential dependency
graphs included, the closure worklist loop terminates; `collectDeps` is a
total function (its well-founded recursion is accepted), and this theorem
pins down the invariant behind that termination argument: the visited set
only grows, and the final set stays inside the finite universe given by
the initial worklist and the ids mentioned in the catalog. -/
theorem collectDeps_terminates_bounded (catalog : List FunctionDef)
    (tp : List String) (visited : Finset String) :
    visited ⊆ collectDeps catalog tp visited ∧
    collectDeps catalog tp visited ⊆
      visited ∪ tp.toFinset ∪ catalogDepIds catalog := by
  induction tp, visited using collectDeps.induct catalog with
  | case1 visited =>
    rw [collectDeps_nil]
    exact ⟨subset_rfl, Finset.subset_union_left.trans Finset.subset_union_left⟩
  | case2 dep_id rest visited hmem ih =>
    rw [collectDeps_cons_mem _ _ _ _ hmem]
    refine ⟨ih.1, ih.2.trans ?_⟩
    apply Finset.union_subset_union _ subset_rfl
    apply Finset.union_subset_union subset_rfl
    simp only [List.toFinset_cons]
    exact Finset.subset_insert _ _
  | case3 dep_id rest visited hmem hfind ih =>
    rw [collectDeps_cons_none _ _ _ _ hmem hfind]
    refine ⟨(Finset.subset_insert _ _).trans ih.1, ih.2.trans ?_⟩
    exact insert_step_subset _ _ _ _ _ Finset.subset_union_left
  | case4 dep_id rest visited hmem dep_func hfind ih =>
    rw [collectDeps_cons_some _ _ _ _ hmem _ hfind]
    refine ⟨(Finset.subset_insert _ _).trans ih.1, ih.2.trans ?_⟩
    refine insert_step_subset _ _ _ _ _ ?_
    rw [List.toFinset_append]
    refine Finset.union_subset_union subset_rfl ?_
    intro x hx
    simp only [List.mem_toFinset] at hx
    refine subset_catalogDepIds (List.mem_of_find?_eq_some hfind) ?_
    simp only [List.mem_toFinset]
    exact List.mem_of_mem_filter hx

/-- C1 counterexample: on the cyclic catalog `A→B→A`, the closure of `A`
as computed by the worklist loop is not `{B}` — the loop re-adds the
starting node `A` itself when it is reached through the cycle. -/
theorem closure_cycle_not_just_B :
    collectDeps [cycleA, cycleB] cycleA.dependencies ∅ ≠ {"B"} := by
  rw [collectDeps_cycle]
  decide

/-- C1 (amended): for the chain `A→B→C` the closure of `A` is exactly
`{B, C}`; for the cyclic graph `A→B→A` the computation terminates and
yields `{A, B}` — the starting node is included, because the worklist
visits it as a dependency of `B` and nothing excludes the start id. -/
theorem closure_chain_and_cycle :
    collectDeps [chainA, chainB, chainC] chainA.dependencies ∅ = {"B", "C"} ∧
    collectDeps [cycleA, cycleB] cycleA.dependencies ∅ = {"A", "B"} :=
  ⟨collectDeps_chain, collectDeps_cycle⟩

/-- C2: after every successful `update_task_status` call the stored
summary satisfies `total = number of task entries`, the four per-status
counts sum to the total, and each per-status count equals the number of
task entries holding that status — whatever the summary held before. -/
theorem update_task_status_summary_invariant
    (catalog : List FunctionDef) (now : String) (p : ProgressData)
    (fid status : String) (notes : Option String) (p' : ProgressData)
    (h : update_task_status catalog now p fid status notes = .ok p') :
    p'.summary.total = p'.tasks.length ∧
    p'.summary.completed + p'.summary.in_progress + p'.summary.pending +
      p'.summary.blocked = p'.summary.total ∧
    p'.summary.completed = countStatus p'.tasks .completed ∧
    p'.summary.in_progress = countStatus p'.tasks .in_progress ∧
    p'.summary.pending = countStatus p'.tasks .pending ∧
    p'.summary.blocked = countStatus p'.tasks .blocked := by
  rcases hps : parseStatus status with _ | ns
  · rw [update_invalid_eq catalog now p fid status notes hps] at h
    exact Except.noConfusion h
  · rcases hlt : lookupTask p.tasks fid with _ | t0
    · rcases hgf : get_function_by_id catalog fid with _ | f
      · rw [update_unknown_eq catalog now p fid status notes ns hps hlt hgf] at h
        exact Except.noConfusion h
      · rw [update_create_eq catalog now p fid status notes ns f hps hlt hgf] at h
        rw [Except.ok.injEq] at h
        subst h
        exact post_summary_ok _ _ _
    · rw [update_existing_eq catalog now p fid status notes ns t0 hps hlt] at h
      rw [Except.ok.injEq] at h
      subst h
      exact post_summary_ok _ _ _

/-- C2 witness: the invariant holds on the concrete state produced by
transitioning catalog unit `A` (previously untracked) to `completed`. -/
theorem update_task_status_summary_invariant_witness :
    demoCreated.summary.total = demoCreated.tasks.length ∧
    demoCreated.summary.completed + demoCreated.summary.in_progress +
      demoCreated.summary.pending + demoCreated.summary.blocked =
      demoCreated.summary.total ∧
    demoCreated.summary.completed = countStatus demoCreated.tasks .completed ∧
    demoCreated.summary.in_progress = countStatus demoCreated.tasks .in_progress ∧
    demoCreated.summary.pending = countStatus demoCreated.tasks .pending ∧
    demoCreated.summary.blocked = countStatus demoCreated.tasks .blocked :=
  update_task_status_summary_invariant demoCatalog "t1" {} "A" "completed"
    none demoCreated rfl

/-- C7: transitioning an id absent from both the task mapping and the
catalog fails with an error message naming the id, and no state comes
back out of the operation (nothing is persisted on the error path). -/
theorem update_task_status_unknown_id
    (catalog : List FunctionDef) (now : String) (p : ProgressData)
    (fid status : String) (notes : Option String) (ns : TaskStatusEnum)
    (hs : parseStatus status = some ns)
    (h0 : lookupTask p.tasks fid = none)
    (hf : get_function_by_id catalog fid = none) :
    update_task_status catalog now p fid status notes =
      .error ("找不到函数: " ++ fid) :=
  update_unknown_eq catalog now p fid status notes ns hs h0 hf

/-- C7 witness: transitioning unknown id `Z` on an empty state with an
empty catalog produces exactly the unknown-function error. -/
theorem update_task_status_unknown_id_witness :
    update_task_status [] "t1" {} "Z" "pending" none =
      .error ("找不到函数: " ++ "Z") :=
  update_task_status_unknown_id [] "t1" {} "Z" "pending" none .pending
    rfl rfl rfl

/-- C3: when no task is in-progress, the context scan returns the first
pending task in iteration order whose readiness check passes, and for a
task with a catalog entry readiness holds exactly when every declared
dependency id resolves to a task state with status `completed` (vacuously
when there are no dependencies); a missing or non-completed dependency
state falsifies readiness, so the task is skipped by the scan. -/
theorem current_task_first_ready_pending (func_map : List FunctionDef)
    (tasks : List (String × TaskStatus))
    (hnip : ∀ q ∈ tasks, q.2.status ≠ TaskStatusEnum.in_progress) :
    findCurrentTask func_map tasks tasks none =
      (tasks.find? (fun q => decide (q.2.status = TaskStatusEnum.pending) &&
        is_task_ready func_map tasks q.1)).map Prod.snd ∧
    ∀ fid f, get_function_by_id func_map fid = some f →
      (is_task_ready func_map tasks fid = true ↔
        ∀ dep ∈ f.dependencies,
          ∃ t, lookupTask tasks dep = some t ∧ t.status = .completed) :=
  ⟨findCurrentTask_no_ip func_map tasks tasks hnip,
   fun fid f hf => is_task_ready_iff func_map tasks fid f hf⟩

/-- C3 witness: with no in-progress task, pending `A` (dependency `B` has
no task state) is skipped and pending `C` (no dependencies) is selected. -/
theorem current_task_first_ready_pending_witness :
    (findCurrentTask demoCatalog demoTasksNoIp demoTasksNoIp none =
      (demoTasksNoIp.find? (fun q =>
        decide (q.2.status = TaskStatusEnum.pending) &&
        is_task_ready demoCatalog demoTasksNoIp q.1)).map Prod.snd ∧
    ∀ fid f, get_function_by_id demoCatalog fid = some f →
      (is_task_ready demoCatalog demoTasksNoIp fid = true ↔
        ∀ dep ∈ f.dependencies,
          ∃ t, lookupTask demoTasksNoIp dep = some t ∧
            t.status = .completed)) ∧
    findCurrentTask demoCatalog demoTasksNoIp demoTasksNoIp none =
      some demoPendingC :=
  ⟨current_task_first_ready_pending demoCatalog demoTasksNoIp (by decide),
   by decide⟩

/-- C4: whenever some task is in-progress, the context scan returns the
first such task in iteration order, regardless of ready pending tasks
encountered earlier in the scan. -/
theorem current_task_in_progress_precedence (func_map : List FunctionDef)
    (tasks : List (String × TaskStatus))
    (hip : ∃ q ∈ tasks, q.2.status = TaskStatusEnum.in_progress) :
    findCurrentTask func_map tasks tasks none =
      (tasks.find? (fun q =>
        decide (q.2.status = TaskStatusEnum.in_progress))).map Prod.snd :=
  findCurrentTask_ip func_map tasks tasks none hip

/-- C4 witness: the in-progress task `B` wins even though the ready
pending task `C` comes first in iteration order. -/
theorem current_task_in_progress_precedence_witness :
    findCurrentTask demoCatalog demoTasksWithIp demoTasksWithIp none =
      (demoTasksWithIp.find? (fun q =>
        decide (q.2.status = TaskStatusEnum.in_progress))).map Prod.snd ∧
    findCurrentTask demoCatalog demoTasksWithIp demoTasksWithIp none =
      some demoIpB :=
  ⟨current_task_in_progress_precedence demoCatalog demoTasksWithIp (by decide),
   by decide⟩

/-- C10: a pending task whose id has no catalog entry is never ready,
and the context scan never selects it as the current task, even when it
has no recorded dependencies. -/
theorem pending_without_catalog_never_current (func_map : List FunctionDef)
    (tasks : List (String × TaskStatus)) (t : TaskStatus)
    (hkeys : ∀ q ∈ tasks, q.2.id = q.1)
    (hpend : t.status = TaskStatusEnum.pending)
    (habs : get_function_by_id func_map t.id = none) :
    is_task_ready func_map tasks t.id = false ∧
    findCurrentTask func_map tasks tasks none ≠ some t := by
  have hr := is_task_ready_absent func_map tasks t.id habs
  exact ⟨hr, findCurrentTask_not_selected func_map tasks t hpend hr tasks none
    hkeys (by simp)⟩

/-- C10 witness: pending task `Z` is not in the demo catalog, so it is
not ready and is not selected even though it is the only task. -/
theorem pending_without_catalog_never_current_witness :
    is_task_ready demoCatalog demoTasksOrphan demoPendingZ.id = false ∧
    findCurrentTask demoCatalog demoTasksOrphan demoTasksOrphan none ≠
      some demoPendingZ :=
  pending_without_catalog_never_current demoCatalog demoTasksOrphan
    demoPendingZ (by decide) (by decide) (by decide)

theorem post_tasks_eq (q : ProgressData) (fid : String) (ns : TaskStatusEnum) :
    (updateCurrentPointer (recalculate_summary q) fid ns).tasks = q.tasks := by
  rw [updateCurrentPointer_tasks, (recalculate_summary_spec q).1]

theorem post_changelog_eq (q : ProgressData) (fid : String)
    (ns : TaskStatusEnum) :
    (updateCurrentPointer (recalculate_summary q) fid ns).changelog =
      q.changelog := by
  rw [updateCurrentPointer_changelog, (recalculate_summary_spec q).2.1]

theorem post_pname (q : ProgressData) (fid : String) (ns : TaskStatusEnum) :
    (updateCurrentPointer (recalculate_summary q) fid ns).summary.project_name =
      q.summary.project_name := by
  rw [(updateCurrentPointer_counts _ _ _).2.2.2.2.2,
    (recalculate_summary_spec q).2.2.2.2.1]

theorem post_total (q : ProgressData) (fid : String) (ns : TaskStatusEnum) :
    (updateCurrentPointer (recalculate_summary q) fid ns).summary.total =
      q.tasks.length := by
  rw [(updateCurrentPointer_counts _ _ _).1,
    (recalculate_summary_spec q).2.2.2.2.2.1]

theorem post_completed (q : ProgressData) (fid : String) (ns : TaskStatusEnum) :
    (updateCurrentPointer (recalculate_summary q) fid ns).summary.completed =
      countStatus q.tasks .completed := by
  rw [(updateCurrentPointer_counts _ _ _).2.1,
    (recalculate_summary_spec q).2.2.2.2.2.2.1]

theorem post_in_progress (q : ProgressData) (fid : String)
    (ns : TaskStatusEnum) :
    (updateCurrentPointer (recalculate_summary q) fid ns).summary.in_progress =
      countStatus q.tasks .in_progress := by
  rw [(updateCurrentPointer_counts _ _ _).2.2.1,
    (recalculate_summary_spec q).2.2.2.2.2.2.2.1]

theorem post_pending (q : ProgressData) (fid : String) (ns : TaskStatusEnum) :
    (updateCurrentPointer (recalculate_summary q) fid ns).summary.pending =
      countStatus q.tasks .pending := by
  rw [(updateCurrentPointer_counts _ _ _).2.2.2.1,
    (recalculate_summary_spec q).2.2.2.2.2.2.2.2.1]

theorem post_blocked (q : ProgressData) (fid : String) (ns : TaskStatusEnum) :
    (updateCurrentPointer (recalculate_summary q) fid ns).summary.blocked =
      countStatus q.tasks .blocked := by
  rw [(updateCurrentPointer_counts _ _ _).2.2.2.2.1,
    (recalculate_summary_spec q).2.2.2.2.2.2.2.2.2]

/-- C5: after every successful transition, the current-task pointer obeys
the rule — moved to `in_progress` sets the pointer to the task id; any
other new status clears the pointer when it pointed at this task and
leaves it unchanged otherwise — and this holds on both the creation path
and the existing-task path. -/
theorem update_task_status_pointer_update
    (catalog : List FunctionDef) (now : String) (p : ProgressData)
    (fid status : String) (notes : Option String) (ns : TaskStatusEnum)
    (p' : ProgressData)
    (hs : parseStatus status = some ns)
    (h : update_task_status catalog now p fid status notes = .ok p') :
    (ns = TaskStatusEnum.in_progress →
      p'.summary.current_task = some fid) ∧
    (ns ≠ TaskStatusEnum.in_progress → p.summary.current_task = some fid →
      p'.summary.current_task = none) ∧
    (ns ≠ TaskStatusEnum.in_progress → p.summary.current_task ≠ some fid →
      p'.summary.current_task = p.summary.current_task) := by
  rcases hlt : lookupTask p.tasks fid with _ | t0
  · rcases hgf : get_function_by_id catalog fid with _ | f
    · rw [update_unknown_eq catalog now p fid status notes ns hs hlt hgf] at h
      exact Except.noConfusion h
    · rw [update_create_eq catalog now p fid status notes ns f hs hlt hgf] at h
      rw [Except.ok.injEq] at h
      subst h
      rw [post_pointer_ok]
      exact pointer_cases p.summary.current_task fid ns
  · rw [update_existing_eq catalog now p fid status notes ns t0 hs hlt] at h
    rw [Except.ok.injEq] at h
    subst h
    rw [post_pointer_ok]
    exact pointer_cases p.summary.current_task fid ns

/-- C5 witness: transitioning untracked `A` to `in_progress` on the empty
state sets the pointer to `A`; the clearing and leave-alone branches hold
vacuously at this input. -/
theorem update_task_status_pointer_update_witness :
    (TaskStatusEnum.in_progress = TaskStatusEnum.in_progress →
      demoStarted.summary.current_task = some "A") ∧
    (TaskStatusEnum.in_progress ≠ TaskStatusEnum.in_progress →
      (({} : ProgressData)).summary.current_task = some "A" →
      demoStarted.summary.current_task = none) ∧
    (TaskStatusEnum.in_progress ≠ TaskStatusEnum.in_progress →
      (({} : ProgressData)).summary.current_task ≠ some "A" →
      demoStarted.summary.current_task =
        (({} : ProgressData)).summary.current_task) :=
  update_task_status_pointer_update demoCatalog "t1" {} "A" "in_progress"
    none .in_progress demoStarted rfl rfl

/-- C6: with a valid status, transitioning an id that has no TaskState but
is in the catalog succeeds, creates a TaskState carrying the requested
status, note and now-timestamp, and appends nothing to the changelog;
transitioning an id that already has a TaskState succeeds and appends
exactly one changelog entry describing the old-to-new transition (also
when the status is unchanged). -/
theorem update_task_status_create_vs_log
    (catalog : List FunctionDef) (now : String) (p : ProgressData)
    (fid status : String) (notes : Option String) (ns : TaskStatusEnum)
    (hs : parseStatus status = some ns) :
    (∀ f, lookupTask p.tasks fid = none →
      get_function_by_id catalog fid = some f →
      ∃ p', update_task_status catalog now p fid status notes = .ok p' ∧
        lookupTask p'.tasks fid =
          some { id := fid, status := ns, notes := notes, updated_at := now } ∧
        p'.changelog = p.changelog) ∧
    (∀ t0, lookupTask p.tasks fid = some t0 →
      ∃ p', update_task_status catalog now p fid status notes = .ok p' ∧
        lookupTask p'.tasks fid =
          some { id := t0.id, status := ns, notes := notes, updated_at := now } ∧
        p'.changelog = p.changelog ++
          [{ date := none, timestamp := some now, function_id := some fid,
             action := some "status_change",
             description := "状态从 " ++ t0.status.value ++ " 变更为 " ++
               ns.value,
             author := none }]) := by
  constructor
  · intro f h0 hf
    refine ⟨_, update_create_eq catalog now p fid status notes ns f hs h0 hf,
      ?_, ?_⟩
    · rw [updateCurrentPointer_tasks, (recalculate_summary_spec _).1]
      exact lookupTask_append_self p.tasks fid _ h0
    · rw [updateCurrentPointer_changelog, (recalculate_summary_spec _).2.1]
  · intro t0 h0
    refine ⟨_, update_existing_eq catalog now p fid status notes ns t0 hs h0,
      ?_, ?_⟩
    · rw [updateCurrentPointer_tasks, (recalculate_summary_spec _).1]
      have := lookupTask_updateTask_self p.tasks fid
        (fun t => { t with status := ns, notes := notes, updated_at := now })
      rw [this, h0]
      rfl
    · rw [updateCurrentPointer_changelog, (recalculate_summary_spec _).2.1]

/-- C6 witness: on the empty state, transitioning catalog unit `A` takes
the creation path (a TaskState appears with the requested fields and the
changelog stays empty); on a state already tracking `A`, the same call
takes the logging path and appends the transition entry. -/
theorem update_task_status_create_vs_log_witness :
    (∃ p', update_task_status demoCatalog "t1" {} "A" "completed" none =
        .ok p' ∧
      lookupTask p'.tasks "A" =
        some { id := "A", status := .completed, notes := none,
               updated_at := "t1" } ∧
      p'.changelog = ({} : ProgressData).changelog) ∧
    (∃ p', update_task_status demoCatalog "t1" demoTrackedA "A" "completed"
        none = .ok p' ∧
      lookupTask p'.tasks "A" =
        some { id := "A", status := .completed, notes := none,
               updated_at := "t1" } ∧
      p'.changelog = demoTrackedA.changelog ++
        [{ date := none, timestamp := some "t1", function_id := some "A",
           action := some "status_change",
           description := "状态从 " ++ TaskStatusEnum.pending.value ++
             " 变更为 " ++ TaskStatusEnum.completed.value,
           author := none }]) :=
  ⟨(update_task_status_create_vs_log demoCatalog "t1" {} "A" "completed"
      none .completed rfl).1 chainA rfl rfl,
   (update_task_status_create_vs_log demoCatalog "t1" demoTrackedA "A"
      "completed" none .completed rfl).2
      { id := "A", status := .pending, notes := some "", updated_at := "t0" }
      rfl⟩

/-- C8: for an id that already has a TaskState, applying the same
transition twice (same id, status and note, equal timestamp inputs)
appends one changelog entry per call — two in total, logged even though
the second call changes nothing — while the final task mapping, the
looked-up TaskState and the whole summary agree with the single
application. -/
theorem update_task_status_idempotent
    (catalog : List FunctionDef) (now : String) (p : ProgressData)
    (fid status : String) (notes : Option String) (ns : TaskStatusEnum)
    (t0 : TaskStatus)
    (hs : parseStatus status = some ns)
    (h0 : lookupTask p.tasks fid = some t0) :
    ∃ p1 p2,
      update_task_status catalog now p fid status notes = .ok p1 ∧
      update_task_status catalog now p1 fid status notes = .ok p2 ∧
      p2.tasks = p1.tasks ∧
      lookupTask p2.tasks fid = lookupTask p1.tasks fid ∧
      p2.summary = p1.summary ∧
      p1.changelog.length = p.changelog.length + 1 ∧
      p2.changelog.length = p.changelog.length + 2 := by
  refine ⟨_, _, update_existing_eq catalog now p fid status notes ns t0 hs h0,
    update_existing_eq catalog now _ fid status notes ns
      ({ t0 with status := ns, notes := notes, updated_at := now }) hs ?_,
    ?_, ?_, ?_, ?_, ?_⟩
  · rw [post_tasks_eq]
    show lookupTask (updateTask p.tasks fid
      (fun t => { t with status := ns, notes := notes, updated_at := now }))
      fid = some { t0 with status := ns, notes := notes, updated_at := now }
    rw [lookupTask_updateTask_self, h0]
    rfl
  · simp only [post_tasks_eq]
    exact updateTask_idem p.tasks fid _ (fun t => rfl)
  · simp only [post_tasks_eq]
    rw [updateTask_idem p.tasks fid
      (fun t => { t with status := ns, notes := notes, updated_at := now })
      (fun t => rfl)]
  · refine ProjectProgress.ext' ?_ ?_ ?_ ?_ ?_ ?_ ?_
    · simp only [post_pname]
    · simp only [post_total, post_tasks_eq]
      rw [updateTask_idem p.tasks fid
        (fun t => { t with status := ns, notes := notes, updated_at := now })
        (fun t => rfl)]
    · simp only [post_completed, post_tasks_eq]
      rw [updateTask_idem p.tasks fid
        (fun t => { t with status := ns, notes := notes, updated_at := now })
        (fun t => rfl)]
    · simp only [post_in_progress, post_tasks_eq]
      rw [updateTask_idem p.tasks fid
        (fun t => { t with status := ns, notes := notes, updated_at := now })
        (fun t => rfl)]
    · simp only [post_pending, post_tasks_eq]
      rw [updateTask_idem p.tasks fid
        (fun t => { t with status := ns, notes := notes, updated_at := now })
        (fun t => rfl)]
    · simp only [post_blocked, post_tasks_eq]
      rw [updateTask_idem p.tasks fid
        (fun t => { t with status := ns, notes := notes, updated_at := now })
        (fun t => rfl)]
    · simp only [post_pointer_ok]
      exact pointer_formula_idem p.summary.current_task fid ns
  · simp only [post_changelog_eq]
    simp
  · simp only [post_changelog_eq]
    simp

/-- C8 witness: re-completing already-tracked `A` twice with equal inputs
logs two entries but produces the same task state and summary as one call. -/
theorem update_task_status_idempotent_witness :
    ∃ p1 p2,
      update_task_status demoCatalog "t1" demoTrackedA "A" "completed" none =
        .ok p1 ∧
      update_task_status demoCatalog "t1" p1 "A" "completed" none = .ok p2 ∧
      p2.tasks = p1.tasks ∧
      lookupTask p2.tasks "A" = lookupTask p1.tasks "A" ∧
      p2.summary = p1.summary ∧
      p1.changelog.length = demoTrackedA.changelog.length + 1 ∧
      p2.changelog.length = demoTrackedA.changelog.length + 2 :=
  update_task_status_idempotent demoCatalog "t1" demoTrackedA "A" "completed"
    none .completed
    { id := "A", status := .pending, notes := some "", updated_at := "t0" }
    rfl rfl

end ProjectTracker
